import Mathlib

/-!
# Transaction manager (`postgres/pgxv5`): a shallow embedding

The embedding follows `src/postgres/pgxv5/transaction_manager.go`.

* A Go `error` is `Option GoError` (`none` is `nil`).
* `context.Context` is the chain of `WithValue` bindings; `Value` walks it
  from the child towards the root.  The reserved key has an unexported type,
  so only `runTransaction` binds it, and only to a `pgx.Tx`.
* The pool and the transaction handle are external collaborators.  Their
  answers are given by a `Pool` record of functions of the history of calls
  issued so far and of the carrier passed, so that every behaviour of the
  driver is covered.
* A computation is a function from the history of issued calls to an
  outcome (a returned value or a panic) and the new history.
-/

namespace Pgxv5

/-! ## Errors -/

/-- A non-nil Go error value: its message and, when it wraps another error
(`%w`), the error `Unwrap` gives. -/
inductive GoError where
  | leaf (msg : String)
  | wrap (msg : String) (cause : GoError)
  deriving DecidableEq, Repr

/-- The Go `error` interface value: `none` is `nil`. -/
abbrev Err := Option GoError

/-- Method `Error()`. -/
def GoError.Error : GoError → String
  | .leaf msg => msg
  | .wrap msg _ => msg

/-- Function `errors.Unwrap`. -/
def GoError.Unwrap : GoError → Err
  | .leaf _ => none
  | .wrap _ cause => some cause

/-- The errors reachable from an error by repeated `Unwrap`, itself first:
what `errors.Is` inspects. -/
def GoError.chain : GoError → List GoError
  | .leaf msg => [.leaf msg]
  | .wrap msg cause => .wrap msg cause :: cause.chain

/-- The call `fmt.Errorf(format + "%v", arg)`: the verb `%v` only prints its
argument, so the result has the formatted message and wraps nothing. -/
def Errorf (format : String) (arg : String) : GoError :=
  .leaf (format ++ arg)

/-- A value given to `panic`, as `recover()` returns it.  From Go 1.21 on the
value `recover()` returns while panicking is never nil. -/
inductive PanicVal where
  | str (s : String)
  | err (e : GoError)
  deriving DecidableEq, Repr

/-- What the verb `%v` prints for a recovered value. -/
def PanicVal.format : PanicVal → String
  | .str s => s
  | .err e => e.Error

/-! ## The driver's types -/

/-- The record `pgx.TxOptions`; the three enumerations are string types in
pgx, with the empty string as zero value. -/
structure TxOptions where
  IsoLevel : String := ""
  AccessMode : String := ""
  DeferrableMode : String := ""
  BeginQuery : String := ""
  CommitQuery : String := ""
  deriving DecidableEq, Repr

/-- A transaction handle (`pgx.Tx`) obtained from the pool. -/
abbrev Tx := Nat

/-- What `GetQueryEngine` can return: the manager's pool, a transaction
handle, or another value that satisfies `QueryEngine`. -/
inductive QueryEngine where
  | pool
  | tx (h : Tx)
  | conn (id : Nat)
  deriving DecidableEq, Repr

/-! ## The call-context carrier -/

/-- Context keys: the package's reserved `txKey`, or a key of another type. -/
inductive Key where
  | txKey
  | foreign (id : Nat)
  deriving DecidableEq, Repr

/-- A value stored in a context: a `pgx.Tx`, a value that satisfies
`QueryEngine` without being a `pgx.Tx`, or anything else. -/
inductive AnyVal where
  | tx (h : Tx)
  | engine (id : Nat)
  | other (id : Nat)
  deriving DecidableEq, Repr

/-- The type assertion `v.(pgx.Tx)`. -/
def AnyVal.asTx : AnyVal → Option Tx
  | .tx h => some h
  | _ => none

/-- The type assertion `v.(QueryEngine)`: every `pgx.Tx` is a `QueryEngine`. -/
def AnyVal.asQueryEngine : AnyVal → Option QueryEngine
  | .tx h => some (.tx h)
  | .engine id => some (.conn id)
  | .other _ => none

/-- An immutable `context.Context`: the root, or a child made by
`context.WithValue`.  The type of `txKey` is not exported, so the one binding
of the reserved key is the one `runTransaction` makes, of a `pgx.Tx`
(`WithTx`); every other binding is of a key of another type (`WithValue`). -/
inductive Context where
  | Background
  | WithTx (parent : Context) (tx : Tx)
  | WithValue (parent : Context) (key : Nat) (val : AnyVal)
  deriving DecidableEq, Repr

/-- Method `ctx.Value(key)`: the nearest binding of the key, `none` (nil) when
no ancestor binds it. -/
def Context.Value : Context → Key → Option AnyVal
  | .Background, _ => none
  | .WithTx parent tx, k => if Key.txKey = k then some (.tx tx) else parent.Value k
  | .WithValue parent key val, k =>
    if Key.foreign key = k then some val else parent.Value k

/-- The lookup `ctx.Value(txKey).(pgx.Tx)` of `runTransaction`: the handle the
carrier has bound, when it has one. -/
def Context.boundTx (ctx : Context) : Option Tx :=
  (ctx.Value .txKey).bind AnyVal.asTx

/-! ## Issued calls and computations -/

/-- A call issued to the pool or to a handle. -/
inductive Event where
  | BeginTx (txOpts : TxOptions)
  | Commit (tx : Tx)
  | Rollback (tx : Tx)
  | Exec (db : QueryEngine) (sql : String)
  deriving DecidableEq, Repr

/-- The history of issued calls, oldest first. -/
abbrev Trace := List Event

/-- A begin issued to the pool. -/
def Event.isBegin : Event → Bool
  | .BeginTx _ => true
  | _ => false

/-- A finalize (commit or rollback) issued to a handle. -/
def Event.isFinalize : Event → Bool
  | .Commit _ => true
  | .Rollback _ => true
  | _ => false

/-- The begins, commits and rollbacks of a history, in order. -/
def control (w : Trace) : Trace :=
  w.filter fun e => e.isBegin || e.isFinalize

/-- How many begins a history holds. -/
def beginCount (w : Trace) : Nat := w.countP Event.isBegin

/-- How many finalizes (commits and rollbacks) a history holds. -/
def finalizeCount (w : Trace) : Nat := w.countP Event.isFinalize

/-- How a Go call ends: it returns, or it panics. -/
inductive Res (α : Type) where
  | ret (a : α)
  | panic (r : PanicVal)
  deriving DecidableEq, Repr

/-- A computation over the history of issued calls. -/
abbrev M (α : Type) := Trace → Res α × Trace

/-- The pool collaborator and the handles it gives out: each answer may depend
on the calls issued before and on the carrier the call is given. -/
structure Pool where
  BeginTx : Trace → Context → TxOptions → Except GoError Tx
  Commit : Trace → Context → Tx → Err
  Rollback : Trace → Context → Tx → Err
  Exec : Trace → Context → QueryEngine → String → Err

/-- The struct `TransactionManager`. -/
structure TransactionManager where
  pool : Pool

/-! ## Options -/

/-- The argument `x any` of an option: a `*pgx.TxOptions` (the model carries
the record it points to), or a value of another type. -/
inductive AnyArg where
  | txOptions (opts : TxOptions)
  | other (id : Nat)
  deriving DecidableEq, Repr

/-- The type `transaction_manager.TransactionOption`, `func(x any)`: an option
only mutates its argument, and the model gives the state of the argument after
the call. -/
abbrev TransactionOption := AnyArg → AnyArg

/-- Option `WithIsoLevel`. -/
def WithIsoLevel (lvl : String) : TransactionOption := fun x =>
  match x with
  | .txOptions opts => .txOptions { opts with IsoLevel := lvl }
  | .other id => .other id

/-- Option `WithAccessMode`. -/
def WithAccessMode (mode : String) : TransactionOption := fun x =>
  match x with
  | .txOptions opts => .txOptions { opts with AccessMode := mode }
  | .other id => .other id

/-- Option `WithDeferrableMode`. -/
def WithDeferrableMode (mode : String) : TransactionOption := fun x =>
  match x with
  | .txOptions opts => .txOptions { opts with DeferrableMode := mode }
  | .other id => .other id

/-- The call `opt(&txOptions)`: the record read back after the call.  A Go
function cannot change the type of what the pointer points to. -/
def callOpt (opt : TransactionOption) (txOptions : TxOptions) : TxOptions :=
  match opt (.txOptions txOptions) with
  | .txOptions opts => opts
  | .other _ => txOptions

/-- The loop `for _, opt := range opts { opt(&txOptions) }` of
`RunTransaction`. -/
def applyOpts : List TransactionOption → TxOptions → TxOptions
  | [], txOptions => txOptions
  | opt :: rest, txOptions => applyOpts rest (callOpt opt txOptions)

/-! ## `runTransaction` -/

/-- The deferred function, first step: `recover()`. -/
def recoverStep (r : Res Err) : Err :=
  match r with
  | .panic p => some (Errorf "transaction_manager: panic recovered: " p.format)
  | .ret err => err

/-- The deferred function, second step: commit when there is no error. -/
def commitStep (m : TransactionManager) (ctx : Context) (tx : Tx) (err : Err) :
    Trace → Err × Trace :=
  fun w =>
    match err with
    | none =>
      match m.pool.Commit w ctx tx with
      | none => (none, w ++ [.Commit tx])
      | some e => (some (Errorf "transaction_manager: commit failed: " e.Error), w ++ [.Commit tx])
    | some e => (some e, w)

/-- The deferred function, third step: roll back on any error. -/
def rollbackStep (m : TransactionManager) (ctx : Context) (tx : Tx) (err : Err) :
    Trace → Err × Trace :=
  fun w =>
    match err with
    | none => (none, w)
    | some e =>
      match m.pool.Rollback w ctx tx with
      | none => (some e, w ++ [.Rollback tx])
      | some errRollback =>
        (some (Errorf "transaction_manager: rollback failed: " errRollback.Error),
          w ++ [.Rollback tx])

/-- The deferred function of `runTransaction`, run when `fn` has returned or
panicked: it sets the named result `err`. -/
def deferred (m : TransactionManager) (ctx : Context) (tx : Tx) (r : Res Err) : M Err := fun w =>
  let c := commitStep m ctx tx (recoverStep r) w
  let b := rollbackStep m ctx tx c.1 c.2
  (.ret b.1, b.2)

/-- Method `runTransaction`. -/
def runTransaction (m : TransactionManager) (ctx : Context) (txOpts : TxOptions)
    (fn : Context → M Err) : M Err := fun w =>
  match ctx.boundTx with
  | some _ => fn ctx w
  | none =>
    match m.pool.BeginTx w ctx txOpts with
    | .error err =>
      (.ret (some (Errorf "transaction_manager: can't begin transaction: " err.Error)),
        w ++ [.BeginTx txOpts])
    | .ok tx =>
      let txCtx := Context.WithTx ctx tx
      let r := fn txCtx (w ++ [.BeginTx txOpts])
      deferred m ctx tx r.1 r.2

/-- Method `RunTransaction`. -/
def RunTransaction (m : TransactionManager) (ctx : Context) (fn : Context → M Err)
    (opts : List TransactionOption) : M Err :=
  runTransaction m ctx (applyOpts opts {}) fn

/-- Method `GetQueryEngine`. -/
def GetQueryEngine (_m : TransactionManager) (ctx : Context) : QueryEngine :=
  match (ctx.Value .txKey).bind AnyVal.asQueryEngine with
  | some tx => tx
  | none => .pool

/-! ## Units of work that nest -/

/-- A unit-of-work written against the manager: it returns or panics, runs a
statement on the engine `GetQueryEngine` resolves from its carrier, derives a
carrier with a key of its own, or calls `RunTransaction` with the carrier it
has; what it does next may depend on the error it got back. -/
inductive Work where
  | ret (err : Err)
  | panic (r : PanicVal)
  | exec (sql : String) (next : Err → Work)
  | withValue (key : Nat) (val : AnyVal) (next : Work)
  | nested (opts : List TransactionOption) (inner : Work) (next : Err → Work)

/-- The Go function a `Work` stands for, as `func(txCtx context.Context) error`. -/
def Work.run (m : TransactionManager) : Work → Context → M Err
  | .ret err, _ => fun w => (.ret err, w)
  | .panic r, _ => fun w => (.panic r, w)
  | .exec sql next, ctx => fun w =>
    let db := GetQueryEngine m ctx
    (next (m.pool.Exec w ctx db sql)).run m ctx (w ++ [.Exec db sql])
  | .withValue key val next, ctx => next.run m (Context.WithValue ctx key val)
  | .nested opts inner next, ctx => fun w =>
    match RunTransaction m ctx (inner.run m) opts w with
    | (.ret err, w1) => (next err).run m ctx w1
    | (.panic r, w1) => (.panic r, w1)

/-! ## The specification's reading of the option set -/

/-- The three options the package offers, as data. -/
inductive OptionSpec where
  | isoLevel (lvl : String)
  | accessMode (mode : String)
  | deferrableMode (mode : String)
  deriving DecidableEq, Repr

/-- The option function each one stands for. -/
def OptionSpec.toOption : OptionSpec → TransactionOption
  | .isoLevel lvl => WithIsoLevel lvl
  | .accessMode mode => WithAccessMode mode
  | .deferrableMode mode => WithDeferrableMode mode

/-- The fold of the specification: the options applied in order to a record. -/
def foldOptions (opts : List TransactionOption) (zero : TxOptions) : TxOptions :=
  opts.foldl (fun cfg opt => callOpt opt cfg) zero

/-- The isolation level the last `isoLevel` option of a list gives, if any. -/
def lastIsoLevel : List OptionSpec → Option String
  | [] => none
  | .isoLevel lvl :: rest => (lastIsoLevel rest).orElse fun _ => some lvl
  | _ :: rest => lastIsoLevel rest

/-- The access mode the last `accessMode` option of a list gives, if any. -/
def lastAccessMode : List OptionSpec → Option String
  | [] => none
  | .accessMode mode :: rest => (lastAccessMode rest).orElse fun _ => some mode
  | _ :: rest => lastAccessMode rest

/-- The deferrable mode the last `deferrableMode` option of a list gives, if
any. -/
def lastDeferrableMode : List OptionSpec → Option String
  | [] => none
  | .deferrableMode mode :: rest => (lastDeferrableMode rest).orElse fun _ => some mode
  | _ :: rest => lastDeferrableMode rest

/-- The configuration the specification expects from a list of the package's
options: per field the last option that names it, the zero value otherwise. -/
def expectedConfig (ks : List OptionSpec) : TxOptions where
  IsoLevel := (lastIsoLevel ks).getD ""
  AccessMode := (lastAccessMode ks).getD ""
  DeferrableMode := (lastDeferrableMode ks).getD ""
  BeginQuery := ""
  CommitQuery := ""

/-! ## Concrete collaborators and units of work -/

/-- A pool whose begin, commit and rollback always give the same answers, and
on which only the statement `bad` fails. -/
def fixedPool (begin : Except GoError Tx) (commit rollback : Err) : Pool where
  BeginTx := fun _ _ _ => begin
  Commit := fun _ _ _ => commit
  Rollback := fun _ _ _ => rollback
  Exec := fun _ _ _ sql => if sql = "bad" then some (.leaf "exec failed") else none

/-- A manager over a pool on which every call succeeds, with handle 7. -/
def healthy : TransactionManager := ⟨fixedPool (.ok 7) none none⟩

/-- A manager whose commits fail. -/
def commitFails : TransactionManager :=
  ⟨fixedPool (.ok 7) (some (.leaf "conn lost")) none⟩

/-- A manager whose rollbacks fail. -/
def rollbackFails : TransactionManager :=
  ⟨fixedPool (.ok 7) none (some (.leaf "conn lost"))⟩

/-- A manager whose pool cannot begin. -/
def beginFails : TransactionManager :=
  ⟨fixedPool (.error (.leaf "pool closed")) none none⟩

/-- The error `pgx.ErrTxClosed`. -/
def ErrTxClosed : GoError := .leaf "tx is closed"

/-- A call that closes the handle `tx`: in pgx a `Commit` or a `Rollback`
closes the handle it is issued on, whatever its outcome. -/
def Event.closes (tx : Tx) : Event → Bool
  | .Commit t => t == tx
  | .Rollback t => t == tx
  | _ => false

/-- The contract of a pgx handle that matters after a failed commit: once
`Commit` has been issued on a handle, `Rollback` on it gives `ErrTxClosed`. -/
def Pool.closesOnCommit (p : Pool) : Prop :=
  ∀ (w : Trace) (ctx : Context) (tx : Tx),
    Event.Commit tx ∈ w → p.Rollback w ctx tx = some ErrTxClosed

/-- A pool with the contract of pgx: begin gives handle 7; the first `Commit`
on a handle gives the answer `commit`, the first `Rollback` succeeds, and both
give `ErrTxClosed` on a handle already closed; only the statement `bad` fails. -/
def pgxPool (commit : Err) : Pool where
  BeginTx := fun _ _ _ => .ok 7
  Commit := fun w _ tx => if w.any (Event.closes tx) then some ErrTxClosed else commit
  Rollback := fun w _ tx => if w.any (Event.closes tx) then some ErrTxClosed else none
  Exec := fun _ _ _ sql => if sql = "bad" then some (.leaf "exec failed") else none

/-- A manager over a pgx-like pool whose commit fails with the given message. -/
def commitFailsPgx (msg : String) : TransactionManager :=
  ⟨pgxPool (some (.leaf msg))⟩

/-- The unit-of-work of `example.Create` in `examples/postgres/pgxv5/main.go`:
`Foo`, then `Bar`, each error wrapped with `%w`. -/
def createWork (first second : String) : Work :=
  .exec first fun err =>
    match err with
    | some e => .ret (some (.wrap ("foo: " ++ e.Error) e))
    | none =>
      .exec second fun err =>
        match err with
        | some e => .ret (some (.wrap ("foo: " ++ e.Error) e))
        | none => .ret none

/-- A use case that calls `Create` inside its own transaction scope, with
options of its own, and returns what it got. -/
def nestedWork (opts : List TransactionOption) (first second : String) : Work :=
  .nested opts (createWork first second) fun err => .ret err

/-- A carrier inside a transaction scope: the reserved key bound to handle 7,
below a binding of another key. -/
def scopedCtx : Context :=
  .WithValue (.WithTx .Background 7) 1 (.other 0)

/-! ## Lemmas about the embedding -/

theorem boundTx_of_value {ctx : Context} {tx : Tx} (h : ctx.Value .txKey = some (.tx tx)) :
    ctx.boundTx = some tx := by
  simp [Context.boundTx, h, AnyVal.asTx]

theorem boundTx_withTx (ctx : Context) (tx : Tx) :
    (Context.WithTx ctx tx).boundTx = some tx := by
  simp [Context.boundTx, Context.Value, AnyVal.asTx]

theorem boundTx_withValue_foreign (ctx : Context) (key : Nat) (val : AnyVal) :
    (Context.WithValue ctx key val).boundTx = ctx.boundTx := by
  simp [Context.boundTx, Context.Value]

theorem runTransaction_nested {m : TransactionManager} {ctx : Context} {tx : Tx}
    (h : ctx.boundTx = some tx) (txOpts : TxOptions) (fn : Context → M Err) :
    runTransaction m ctx txOpts fn = fn ctx := by
  funext w
  simp [runTransaction, h]

theorem runTransaction_begin_error {m : TransactionManager} {ctx : Context} {w : Trace}
    {txOpts : TxOptions} {e : GoError} (hn : ctx.boundTx = none)
    (hb : m.pool.BeginTx w ctx txOpts = .error e) (fn : Context → M Err) :
    runTransaction m ctx txOpts fn w =
      (.ret (some (.leaf ("transaction_manager: can't begin transaction: " ++ e.Error))),
        w ++ [.BeginTx txOpts]) := by
  simp [runTransaction, hn, hb, Errorf]

theorem runTransaction_begin_ok {m : TransactionManager} {ctx : Context} {w : Trace}
    {txOpts : TxOptions} {tx : Tx} (hn : ctx.boundTx = none)
    (hb : m.pool.BeginTx w ctx txOpts = .ok tx) (fn : Context → M Err) :
    runTransaction m ctx txOpts fn w =
      deferred m ctx tx (fn (Context.WithTx ctx tx) (w ++ [.BeginTx txOpts])).1
        (fn (Context.WithTx ctx tx) (w ++ [.BeginTx txOpts])).2 := by
  simp [runTransaction, hn, hb]

theorem deferred_ok_commit_ok {m : TransactionManager} {ctx : Context} {tx : Tx} {w : Trace}
    (hc : m.pool.Commit w ctx tx = none) :
    deferred m ctx tx (.ret none) w = (.ret none, w ++ [.Commit tx]) := by
  simp [deferred, recoverStep, commitStep, rollbackStep, hc]

theorem deferred_ok_commit_error {m : TransactionManager} {ctx : Context} {tx : Tx}
    {w : Trace} {ec : GoError}
    (hc : m.pool.Commit w ctx tx = some ec) :
    deferred m ctx tx (.ret none) w =
      (.ret (match m.pool.Rollback (w ++ [.Commit tx]) ctx tx with
          | none => some (.leaf ("transaction_manager: commit failed: " ++ ec.Error))
          | some e2 => some (.leaf ("transaction_manager: rollback failed: " ++ e2.Error))),
        w ++ [.Commit tx, .Rollback tx]) := by
  simp only [deferred, recoverStep, commitStep, rollbackStep, hc, Errorf]
  cases m.pool.Rollback (w ++ [.Commit tx]) ctx tx <;> simp

theorem deferred_error {m : TransactionManager} {ctx : Context} {tx : Tx} {w : Trace}
    (e : GoError) :
    deferred m ctx tx (.ret (some e)) w =
      (.ret (match m.pool.Rollback w ctx tx with
          | none => some e
          | some e2 => some (.leaf ("transaction_manager: rollback failed: " ++ e2.Error))),
        w ++ [.Rollback tx]) := by
  simp only [deferred, recoverStep, commitStep, rollbackStep, Errorf]
  cases m.pool.Rollback w ctx tx <;> simp

theorem deferred_panic {m : TransactionManager} {ctx : Context} {tx : Tx} {w : Trace}
    (r : PanicVal) :
    deferred m ctx tx (.panic r) w =
      (.ret (match m.pool.Rollback w ctx tx with
          | none => some (.leaf ("transaction_manager: panic recovered: " ++ r.format))
          | some e2 => some (.leaf ("transaction_manager: rollback failed: " ++ e2.Error))),
        w ++ [.Rollback tx]) := by
  simp only [deferred, recoverStep, commitStep, rollbackStep, Errorf]
  cases m.pool.Rollback w ctx tx <;> simp

theorem deferred_ret_none {m : TransactionManager} {ctx : Context} {tx : Tx} {r : Res Err}
    {w : Trace}
    (h : (deferred m ctx tx r w).1 = .ret none) :
    r = .ret none ∧ m.pool.Commit w ctx tx = none := by
  cases r with
  | panic p =>
    rw [deferred_panic] at h
    cases hr : m.pool.Rollback w ctx tx <;> simp [hr] at h
  | ret err =>
    cases err with
    | some e =>
      rw [deferred_error] at h
      cases hr : m.pool.Rollback w ctx tx <;> simp [hr] at h
    | none =>
      cases hc : m.pool.Commit w ctx tx with
      | none => exact ⟨rfl, rfl⟩
      | some ec =>
        rw [deferred_ok_commit_error hc] at h
        cases hr : m.pool.Rollback (w ++ [.Commit tx]) ctx tx <;> simp [hr] at h

/-! ## Lemmas about units of work that nest -/

theorem control_append (w v : Trace) : control (w ++ v) = control w ++ control v := by
  simp [control]

theorem beginCount_control (w : Trace) : beginCount (control w) = beginCount w := by
  induction w with
  | nil => rfl
  | cons e w ih =>
    cases e <;> simp_all [control, beginCount, Event.isBegin, Event.isFinalize]

theorem finalizeCount_control (w : Trace) : finalizeCount (control w) = finalizeCount w := by
  induction w with
  | nil => rfl
  | cons e w ih =>
    cases e <;> simp_all [control, finalizeCount, Event.isBegin, Event.isFinalize]

/-- Inside a scope a unit-of-work, however deep it nests, issues no begin, no
commit and no rollback. -/
theorem Work.run_bound_control (m : TransactionManager) (u : Work) :
    ∀ (ctx : Context) (w : Trace) (tx : Tx), ctx.boundTx = some tx →
      control (u.run m ctx w).2 = control w := by
  induction u with
  | ret err => intro ctx w tx _; rfl
  | panic r => intro ctx w tx _; rfl
  | exec sql next ih =>
    intro ctx w tx h
    simp only [Work.run]
    rw [ih _ ctx _ tx h, control_append]
    simp [control, Event.isBegin, Event.isFinalize]
  | withValue key val next ih =>
    intro ctx w tx h
    simp only [Work.run]
    exact ih _ w tx ((boundTx_withValue_foreign ctx key val).trans h)
  | nested opts inner next ihInner ihNext =>
    intro ctx w tx h
    have hin := ihInner ctx w tx h
    simp only [Work.run, RunTransaction, runTransaction_nested h]
    cases hr : inner.run m ctx w with
    | mk r w1 =>
      rw [hr] at hin
      cases r with
      | ret err => simp only; rw [ihNext err ctx w1 tx h]; exact hin
      | panic p => exact hin

/-- Inside a scope the options of a nested call are not looked at. -/
theorem Work.run_nested_bound (m : TransactionManager) {ctx : Context} {tx : Tx}
    (h : ctx.boundTx = some tx) (opts opts2 : List TransactionOption) (inner : Work)
    (next : Err → Work) :
    (Work.nested opts inner next).run m ctx = (Work.nested opts2 inner next).run m ctx := by
  funext w
  simp only [Work.run, RunTransaction, runTransaction_nested h]

/-- The begins, commits and rollbacks of a non-nested `RunTransaction` around
a unit-of-work that nests: the begin, then what the deferred function issues. -/
theorem control_RunTransaction (m : TransactionManager) (ctx : Context) (u : Work)
    (opts : List TransactionOption) (w : Trace) (hn : ctx.boundTx = none) :
    (∀ e, m.pool.BeginTx w ctx (applyOpts opts {}) = .error e →
      control (RunTransaction m ctx (u.run m) opts w).2 =
        control w ++ [.BeginTx (applyOpts opts {})]) ∧
    (∀ tx r w1, m.pool.BeginTx w ctx (applyOpts opts {}) = .ok tx →
      u.run m (.WithTx ctx tx) (w ++ [.BeginTx (applyOpts opts {})]) = (r, w1) →
      (r = .ret none → m.pool.Commit w1 ctx tx = none →
        control (RunTransaction m ctx (u.run m) opts w).2 =
          control w ++ [.BeginTx (applyOpts opts {}), .Commit tx]) ∧
      (r = .ret none → m.pool.Commit w1 ctx tx ≠ none →
        control (RunTransaction m ctx (u.run m) opts w).2 =
          control w ++ [.BeginTx (applyOpts opts {}), .Commit tx, .Rollback tx]) ∧
      (r ≠ .ret none →
        control (RunTransaction m ctx (u.run m) opts w).2 =
          control w ++ [.BeginTx (applyOpts opts {}), .Rollback tx])) := by
  refine ⟨?_, ?_⟩
  · intro e hb
    have hrun : RunTransaction m ctx (u.run m) opts w = _ :=
      runTransaction_begin_error hn hb (u.run m)
    rw [hrun, control_append]
    simp [control, Event.isBegin, Event.isFinalize]
  · intro tx r w1 hb hu
    have hrun : RunTransaction m ctx (u.run m) opts w = _ :=
      runTransaction_begin_ok hn hb (u.run m)
    rw [hu] at hrun
    have hw1 : control w1 = control w ++ [.BeginTx (applyOpts opts {})] := by
      have := Work.run_bound_control m u (.WithTx ctx tx) (w ++ [.BeginTx (applyOpts opts {})])
        tx (boundTx_withTx ctx tx)
      rw [hu, control_append] at this
      simpa [control, Event.isBegin, Event.isFinalize] using this
    refine ⟨?_, ?_, ?_⟩
    · intro hr hc
      subst hr
      rw [hrun, deferred_ok_commit_ok hc, control_append, hw1]
      simp [control, Event.isBegin, Event.isFinalize]
    · intro hr hc
      subst hr
      cases hc2 : m.pool.Commit w1 ctx tx with
      | none => exact absurd hc2 hc
      | some ec =>
        rw [hrun, deferred_ok_commit_error hc2, control_append, hw1]
        simp [control, Event.isBegin, Event.isFinalize]
    · intro hr
      cases r with
      | panic p =>
        rw [hrun, deferred_panic, control_append, hw1]
        simp [control, Event.isBegin, Event.isFinalize]
      | ret err =>
        cases err with
        | none => exact absurd rfl hr
        | some e =>
          rw [hrun, deferred_error, control_append, hw1]
          simp [control, Event.isBegin, Event.isFinalize]

/-- The same in one shape: after the begin only finalizes follow. -/
theorem control_RunTransaction_shape (m : TransactionManager) (ctx : Context) (u : Work)
    (opts : List TransactionOption) (w : Trace) (hn : ctx.boundTx = none) :
    ∃ fin : Trace, control (RunTransaction m ctx (u.run m) opts w).2 =
        control w ++ .BeginTx (applyOpts opts {}) :: fin ∧
      fin.filter Event.isBegin = [] := by
  have h := control_RunTransaction m ctx u opts w hn
  cases hb : m.pool.BeginTx w ctx (applyOpts opts {}) with
  | error e => exact ⟨[], h.1 e hb, rfl⟩
  | ok tx =>
    have h2 := h.2 tx _ _ hb rfl
    by_cases hr : (u.run m (.WithTx ctx tx) (w ++ [.BeginTx (applyOpts opts {})])).1 = .ret none
    · by_cases hc : m.pool.Commit
          (u.run m (.WithTx ctx tx) (w ++ [.BeginTx (applyOpts opts {})])).2 ctx tx = none
      · exact ⟨[.Commit tx], h2.1 hr hc, rfl⟩
      · exact ⟨[.Commit tx, .Rollback tx], h2.2.1 hr hc, rfl⟩
    · exact ⟨[.Rollback tx], h2.2.2 hr, rfl⟩

theorem filter_isBegin_control (w : Trace) :
    (control w).filter Event.isBegin = w.filter Event.isBegin := by
  induction w with
  | nil => rfl
  | cons e w ih =>
    cases e <;> simp_all [control, Event.isBegin, Event.isFinalize]

theorem beginCount_eq_length (w : Trace) :
    beginCount w = (w.filter Event.isBegin).length := by
  simp [beginCount, List.countP_eq_length_filter]

/-- Inside a scope a unit-of-work only adds to the history. -/
theorem Work.run_bound_extends (m : TransactionManager) (u : Work) :
    ∀ (ctx : Context) (w : Trace) (tx : Tx), ctx.boundTx = some tx →
      ∃ rest, (u.run m ctx w).2 = w ++ rest := by
  induction u with
  | ret err => intro ctx w tx _; exact ⟨[], by simp [Work.run]⟩
  | panic r => intro ctx w tx _; exact ⟨[], by simp [Work.run]⟩
  | exec sql next ih =>
    intro ctx w tx h
    obtain ⟨rest, hrest⟩ := ih (m.pool.Exec w ctx (GetQueryEngine m ctx) sql) ctx
      (w ++ [.Exec (GetQueryEngine m ctx) sql]) tx h
    exact ⟨.Exec (GetQueryEngine m ctx) sql :: rest, by simp only [Work.run]; rw [hrest]; simp⟩
  | withValue key val next ih =>
    intro ctx w tx h
    simp only [Work.run]
    exact ih _ w tx ((boundTx_withValue_foreign ctx key val).trans h)
  | nested opts inner next ihInner ihNext =>
    intro ctx w tx h
    obtain ⟨rest, hrest⟩ := ihInner ctx w tx h
    simp only [Work.run, RunTransaction, runTransaction_nested h]
    cases hr : inner.run m ctx w with
    | mk r w1 =>
      rw [hr] at hrest
      simp only at hrest
      cases r with
      | ret err =>
        obtain ⟨rest2, hrest2⟩ := ihNext err ctx w1 tx h
        exact ⟨rest ++ rest2, by simp only; rw [hrest2, hrest]; simp⟩
      | panic p => exact ⟨rest, hrest⟩

theorem deferred_extends (m : TransactionManager) (ctx : Context) (tx : Tx) (r : Res Err)
    (w : Trace) :
    ∃ rest, (deferred m ctx tx r w).2 = w ++ rest := by
  cases r with
  | panic p => exact ⟨[.Rollback tx], by rw [deferred_panic]⟩
  | ret err =>
    cases err with
    | some e => exact ⟨[.Rollback tx], by rw [deferred_error]⟩
    | none =>
      cases hc : m.pool.Commit w ctx tx with
      | none => exact ⟨[.Commit tx], by rw [deferred_ok_commit_ok hc]⟩
      | some ec => exact ⟨[.Commit tx, .Rollback tx], by rw [deferred_ok_commit_error hc]⟩

theorem Context.value_txKey (ctx : Context) :
    ctx.Value .txKey = none ∨ ∃ tx, ctx.Value .txKey = some (.tx tx) := by
  induction ctx with
  | Background => exact Or.inl rfl
  | WithTx parent tx _ => exact Or.inr ⟨tx, by simp [Context.Value]⟩
  | WithValue parent key val ih => simpa [Context.Value] using ih

theorem applyOpts_eq_foldOptions (opts : List TransactionOption) (zero : TxOptions) :
    applyOpts opts zero = foldOptions opts zero := by
  induction opts generalizing zero with
  | nil => rfl
  | cons opt rest ih => simp [applyOpts, foldOptions, ih]

theorem foldOptions_spec (ks : List OptionSpec) (zero : TxOptions) :
    foldOptions (ks.map OptionSpec.toOption) zero =
      { IsoLevel := (lastIsoLevel ks).getD zero.IsoLevel
        AccessMode := (lastAccessMode ks).getD zero.AccessMode
        DeferrableMode := (lastDeferrableMode ks).getD zero.DeferrableMode
        BeginQuery := zero.BeginQuery
        CommitQuery := zero.CommitQuery } := by
  induction ks generalizing zero with
  | nil => rfl
  | cons k rest ih =>
    have hstep : foldOptions ((k :: rest).map OptionSpec.toOption) zero =
        foldOptions (rest.map OptionSpec.toOption) (callOpt k.toOption zero) := by
      simp [foldOptions]
    rw [hstep, ih]
    cases k with
    | isoLevel lvl =>
      cases h : lastIsoLevel rest <;>
        simp [lastIsoLevel, lastAccessMode, lastDeferrableMode, h, callOpt,
          OptionSpec.toOption, WithIsoLevel]
    | accessMode mode =>
      cases h : lastAccessMode rest <;>
        simp [lastIsoLevel, lastAccessMode, lastDeferrableMode, h, callOpt,
          OptionSpec.toOption, WithAccessMode]
    | deferrableMode mode =>
      cases h : lastDeferrableMode rest <;>
        simp [lastIsoLevel, lastAccessMode, lastDeferrableMode, h, callOpt,
          OptionSpec.toOption, WithDeferrableMode]

theorem pgxPool_closesOnCommit (commit : Err) : (pgxPool commit).closesOnCommit := by
  intro w ctx tx h
  have hany : w.any (Event.closes tx) = true :=
    List.any_eq_true.mpr ⟨.Commit tx, h, by simp [Event.closes]⟩
  show (if w.any (Event.closes tx) = true then some ErrTxClosed else none) = some ErrTxClosed
  rw [if_pos hany]

/-! ## The claims about one call -/

/-- C2: on a carrier in which the reserved key is bound to a handle,
`RunTransaction` is, for every unit-of-work and every option list, the
unit-of-work called on that same carrier: the same outcome (nil, the identical
error, or its panic) and the same history of issued calls, so the call itself
issues no begin, no commit and no rollback. -/
theorem RunTransaction_nested_is_fn (m : TransactionManager) (ctx : Context)
    (fn : Context → M Err) (opts : List TransactionOption) (tx : Tx)
    (h : ctx.Value .txKey = some (.tx tx)) :
    RunTransaction m ctx fn opts = fn ctx :=
  runTransaction_nested (boundTx_of_value h) _ fn

/-- Witness of C2: inside a scope, over a pool that cannot begin, the example
unit-of-work runs on the bound handle and its wrapped error comes back as it
is; the history holds its two statements only. -/
theorem RunTransaction_nested_is_fn_witness :
    scopedCtx.Value .txKey = some (.tx 7) ∧
    RunTransaction beginFails scopedCtx ((createWork "a" "bad").run beginFails)
        [WithIsoLevel "serializable"] [] =
      (.ret (some (.wrap "foo: exec failed" (.leaf "exec failed"))),
        [.Exec (.tx 7) "a", .Exec (.tx 7) "bad"]) :=
  ⟨rfl, (congrFun (RunTransaction_nested_is_fn beginFails scopedCtx
    ((createWork "a" "bad").run beginFails) [WithIsoLevel "serializable"] 7 rfl) []).trans rfl⟩

/-- C3: in a non-nested `RunTransaction` whose begin succeeds with handle `tx`
and whose unit-of-work returns nil leaving the history `w1`, the calls issued
after it are one commit, or one commit followed by a rollback; when the commit
succeeds it is the commit alone and the call returns nil.  Conversely the call
returns nil only if begin succeeded, the unit-of-work returned nil and the one
commit issued after it succeeded. -/
theorem RunTransaction_commit_on_success (m : TransactionManager) (ctx : Context)
    (fn : Context → M Err) (opts : List TransactionOption) (w : Trace)
    (hn : ctx.boundTx = none) :
    (∀ tx w1, m.pool.BeginTx w ctx (applyOpts opts {}) = .ok tx →
      fn (.WithTx ctx tx) (w ++ [.BeginTx (applyOpts opts {})]) = (.ret none, w1) →
      ((RunTransaction m ctx fn opts w).2 = w1 ++ [.Commit tx] ∨
        (RunTransaction m ctx fn opts w).2 = w1 ++ [.Commit tx, .Rollback tx]) ∧
      (m.pool.Commit w1 ctx tx = none →
        RunTransaction m ctx fn opts w = (.ret none, w1 ++ [.Commit tx]))) ∧
    ((RunTransaction m ctx fn opts w).1 = .ret none →
      ∃ tx w1, m.pool.BeginTx w ctx (applyOpts opts {}) = .ok tx ∧
        fn (.WithTx ctx tx) (w ++ [.BeginTx (applyOpts opts {})]) = (.ret none, w1) ∧
        m.pool.Commit w1 ctx tx = none ∧
        (RunTransaction m ctx fn opts w).2 = w1 ++ [.Commit tx]) := by
  refine ⟨?_, ?_⟩
  · intro tx w1 hb hfn
    have hrun := runTransaction_begin_ok hn hb fn
    rw [hfn] at hrun
    refine ⟨?_, ?_⟩
    · cases hc : m.pool.Commit w1 ctx tx with
      | none =>
        left
        show (runTransaction m ctx (applyOpts opts {}) fn w).2 = _
        rw [hrun, deferred_ok_commit_ok hc]
      | some ec =>
        right
        show (runTransaction m ctx (applyOpts opts {}) fn w).2 = _
        rw [hrun, deferred_ok_commit_error hc]
    · intro hc
      show runTransaction m ctx (applyOpts opts {}) fn w = _
      rw [hrun, deferred_ok_commit_ok hc]
  · intro hout
    cases hb : m.pool.BeginTx w ctx (applyOpts opts {}) with
    | error e =>
      have hrun := runTransaction_begin_error hn hb fn
      simp [RunTransaction, hrun] at hout
    | ok tx =>
      have hrun := runTransaction_begin_ok hn hb fn
      have hout2 : (runTransaction m ctx (applyOpts opts {}) fn w).1 = .ret none := hout
      rw [hrun] at hout2
      obtain ⟨hr, hc⟩ := deferred_ret_none hout2
      refine ⟨tx, (fn (.WithTx ctx tx) (w ++ [.BeginTx (applyOpts opts {})])).2,
        rfl, ?_, hc, ?_⟩
      · exact Prod.ext hr rfl
      · show (runTransaction m ctx (applyOpts opts {}) fn w).2 = _
        rw [hrun, hr, deferred_ok_commit_ok hc]

/-- Witness of C3: the example unit-of-work with two good statements, on a
healthy pool: one begin, both statements on the handle, one commit, nil. -/
theorem RunTransaction_commit_on_success_witness :
    Context.Background.boundTx = none ∧
    RunTransaction healthy .Background ((createWork "a" "b").run healthy) [] [] =
      (.ret none, [.BeginTx {}, .Exec (.tx 7) "a", .Exec (.tx 7) "b", .Commit 7]) :=
  ⟨rfl, ((RunTransaction_commit_on_success healthy .Background
    ((createWork "a" "b").run healthy) [] [] rfl).1 7
    [.BeginTx {}, .Exec (.tx 7) "a", .Exec (.tx 7) "b"] rfl rfl).2 rfl⟩

/-- C4: in a non-nested `RunTransaction` whose begin succeeds with handle `tx`
and whose unit-of-work returns the error `E` leaving the history `w1`, the
calls issued after it are exactly one rollback (no commit); when that rollback
succeeds the returned error is `E` itself, so `E` is reachable from it. -/
theorem RunTransaction_rollback_on_error (m : TransactionManager) (ctx : Context)
    (fn : Context → M Err) (opts : List TransactionOption) (w w1 : Trace) (tx : Tx)
    (E : GoError) (hn : ctx.boundTx = none)
    (hb : m.pool.BeginTx w ctx (applyOpts opts {}) = .ok tx)
    (hfn : fn (.WithTx ctx tx) (w ++ [.BeginTx (applyOpts opts {})]) =
      (.ret (some E), w1)) :
    (RunTransaction m ctx fn opts w).2 = w1 ++ [.Rollback tx] ∧
    (m.pool.Rollback w1 ctx tx = none →
      ∃ r, (RunTransaction m ctx fn opts w).1 = .ret (some r) ∧ r = E ∧ E ∈ r.chain) := by
  have hrun := runTransaction_begin_ok hn hb fn
  rw [hfn, deferred_error] at hrun
  refine ⟨?_, ?_⟩
  · show (runTransaction m ctx (applyOpts opts {}) fn w).2 = _
    rw [hrun]
  · intro hr
    refine ⟨E, ?_, rfl, ?_⟩
    · show (runTransaction m ctx (applyOpts opts {}) fn w).1 = _
      rw [hrun, hr]
    · cases E <;> simp [GoError.chain]

/-- Witness of C4: the example unit-of-work whose second statement fails, on a
healthy pool: one begin, one rollback, no commit, and the wrapped error of the
unit-of-work returned. -/
theorem RunTransaction_rollback_on_error_witness :
    (RunTransaction healthy .Background ((createWork "a" "bad").run healthy) [] []).2 =
      [.BeginTx {}, .Exec (.tx 7) "a", .Exec (.tx 7) "bad", .Rollback 7] ∧
    ∃ r, (RunTransaction healthy .Background ((createWork "a" "bad").run healthy) [] []).1 =
        .ret (some r) ∧
      r = .wrap "foo: exec failed" (.leaf "exec failed") ∧
      GoError.wrap "foo: exec failed" (.leaf "exec failed") ∈ r.chain :=
  have h := RunTransaction_rollback_on_error healthy .Background
    ((createWork "a" "bad").run healthy) [] [] [.BeginTx {}, .Exec (.tx 7) "a", .Exec (.tx 7) "bad"]
    7 (.wrap "foo: exec failed" (.leaf "exec failed")) rfl rfl rfl
  ⟨h.1, h.2 rfl⟩

/-- C5, as the code has it: in a non-nested `RunTransaction` whose begin
succeeds with handle `tx`, whose unit-of-work returns the error `E1` leaving the
history `w1` and whose rollback then fails with `E2`, the calls issued after the
unit-of-work are exactly one rollback, and the returned error is a new error
whose message is the marker `transaction_manager: rollback failed: ` followed
by the message of `E2`; it wraps nothing and is the same whatever `E1` was. -/
theorem RunTransaction_rollback_failure_supersedes (m : TransactionManager) (ctx : Context)
    (fn : Context → M Err) (opts : List TransactionOption) (w w1 : Trace) (tx : Tx)
    (E1 E2 : GoError) (hn : ctx.boundTx = none)
    (hb : m.pool.BeginTx w ctx (applyOpts opts {}) = .ok tx)
    (hfn : fn (.WithTx ctx tx) (w ++ [.BeginTx (applyOpts opts {})]) =
      (.ret (some E1), w1))
    (hr : m.pool.Rollback w1 ctx tx = some E2) :
    RunTransaction m ctx fn opts w =
      (.ret (some (.leaf ("transaction_manager: rollback failed: " ++ E2.Error))),
        w1 ++ [.Rollback tx]) ∧
    (GoError.leaf ("transaction_manager: rollback failed: " ++ E2.Error)).Unwrap = none := by
  have hrun := runTransaction_begin_ok hn hb fn
  rw [hfn, deferred_error, hr] at hrun
  exact ⟨hrun, rfl⟩

/-- Witness of C5 as amended: a unit-of-work failing with `boom` on a pool
whose rollbacks fail with `conn lost`. -/
theorem RunTransaction_rollback_failure_supersedes_witness :
    RunTransaction rollbackFails .Background
        ((Work.ret (some (.leaf "boom"))).run rollbackFails) [] [] =
      (.ret (some (.leaf "transaction_manager: rollback failed: conn lost")),
        [.BeginTx {}, .Rollback 7]) :=
  (RunTransaction_rollback_failure_supersedes rollbackFails .Background
    ((Work.ret (some (.leaf "boom"))).run rollbackFails) [] [] [.BeginTx {}] 7
    (.leaf "boom") (.leaf "conn lost") rfl rfl rfl rfl).1

/-- C5 as stated fails: with the unit-of-work failing with `boom` and the
rollback failing with `conn lost`, the returned error is the rollback error
alone; `boom` is not reachable from it, and a unit-of-work failing with `bang`
instead gives the very same result. -/
theorem RunTransaction_rollback_failure_drops_cause :
    (RunTransaction rollbackFails .Background
        ((Work.ret (some (.leaf "boom"))).run rollbackFails) [] []).1 =
      .ret (some (.leaf "transaction_manager: rollback failed: conn lost")) ∧
    GoError.leaf "boom" ∉
      (GoError.leaf "transaction_manager: rollback failed: conn lost").chain ∧
    RunTransaction rollbackFails .Background
        ((Work.ret (some (.leaf "boom"))).run rollbackFails) [] [] =
      RunTransaction rollbackFails .Background
        ((Work.ret (some (.leaf "bang"))).run rollbackFails) [] [] := by
  decide

/-- C6: in a non-nested `RunTransaction` whose begin succeeds with handle `tx`
and whose unit-of-work panics with `r` leaving the history `w1`, the call
returns (the panic does not escape) a non-nil error, the calls issued after the
unit-of-work are exactly one rollback (no commit), and when that rollback
succeeds the error is `transaction_manager: panic recovered: ` followed by what
`%v` prints for `r`. -/
theorem RunTransaction_panic_contained (m : TransactionManager) (ctx : Context)
    (fn : Context → M Err) (opts : List TransactionOption) (w w1 : Trace) (tx : Tx)
    (r : PanicVal) (hn : ctx.boundTx = none)
    (hb : m.pool.BeginTx w ctx (applyOpts opts {}) = .ok tx)
    (hfn : fn (.WithTx ctx tx) (w ++ [.BeginTx (applyOpts opts {})]) =
      (.panic r, w1)) :
    (∃ e, (RunTransaction m ctx fn opts w).1 = .ret (some e)) ∧
    (RunTransaction m ctx fn opts w).2 = w1 ++ [.Rollback tx] ∧
    (m.pool.Rollback w1 ctx tx = none →
      (RunTransaction m ctx fn opts w).1 =
        .ret (some (.leaf ("transaction_manager: panic recovered: " ++ r.format)))) := by
  have hrun := runTransaction_begin_ok hn hb fn
  rw [hfn, deferred_panic] at hrun
  have hrun2 : RunTransaction m ctx fn opts w = _ := hrun
  refine ⟨?_, ?_, ?_⟩
  · rw [hrun2]
    cases m.pool.Rollback w1 ctx tx <;> simp
  · rw [hrun2]
  · intro hr
    rw [hrun2, hr]

/-- Witness of C6: a unit-of-work that runs one statement and then panics, on
a healthy pool. -/
theorem RunTransaction_panic_contained_witness :
    RunTransaction healthy .Background
        ((Work.exec "a" fun _ => .panic (.str "index out of range")).run healthy) [] [] =
      (.ret (some (.leaf "transaction_manager: panic recovered: index out of range")),
        [.BeginTx {}, .Exec (.tx 7) "a", .Rollback 7]) :=
  have h := RunTransaction_panic_contained healthy .Background
    ((Work.exec "a" fun _ => .panic (.str "index out of range")).run healthy) [] []
    [.BeginTx {}, .Exec (.tx 7) "a"] 7 (.str "index out of range") rfl rfl rfl
  Prod.ext (h.2.2 rfl) h.2.1

/-- C7, as the code has it: in a non-nested `RunTransaction` whose begin
succeeds with handle `tx`, whose unit-of-work returns nil leaving the history
`w1` and whose commit fails with `Ec`, the calls issued after the unit-of-work
are the commit and then exactly one rollback, and the returned error is
non-nil.  When that rollback fails with `E2` the returned error is the rollback
failure, `transaction_manager: rollback failed: ` followed by the message of
`E2`, which supersedes `Ec`; this is always so on a pool with the contract of
pgx, where the rollback of a handle that `Commit` was issued on gives
`ErrTxClosed`.  Only when the rollback succeeds is the returned error the
commit failure, `transaction_manager: commit failed: ` followed by the message
of `Ec`. -/
theorem RunTransaction_commit_failure (m : TransactionManager) (ctx : Context)
    (fn : Context → M Err) (opts : List TransactionOption) (w w1 : Trace) (tx : Tx)
    (Ec : GoError) (hn : ctx.boundTx = none)
    (hb : m.pool.BeginTx w ctx (applyOpts opts {}) = .ok tx)
    (hfn : fn (.WithTx ctx tx) (w ++ [.BeginTx (applyOpts opts {})]) =
      (.ret none, w1))
    (hc : m.pool.Commit w1 ctx tx = some Ec) :
    (RunTransaction m ctx fn opts w).2 = w1 ++ [.Commit tx, .Rollback tx] ∧
    (∃ e, (RunTransaction m ctx fn opts w).1 = .ret (some e)) ∧
    (m.pool.Rollback (w1 ++ [.Commit tx]) ctx tx = none →
      (RunTransaction m ctx fn opts w).1 =
        .ret (some (.leaf ("transaction_manager: commit failed: " ++ Ec.Error)))) ∧
    (∀ E2, m.pool.Rollback (w1 ++ [.Commit tx]) ctx tx = some E2 →
      (RunTransaction m ctx fn opts w).1 =
        .ret (some (.leaf ("transaction_manager: rollback failed: " ++ E2.Error)))) ∧
    (m.pool.closesOnCommit →
      (RunTransaction m ctx fn opts w).1 =
        .ret (some (.leaf "transaction_manager: rollback failed: tx is closed"))) := by
  have hrun := runTransaction_begin_ok hn hb fn
  rw [hfn, deferred_ok_commit_error hc] at hrun
  have hrun2 : RunTransaction m ctx fn opts w = _ := hrun
  refine ⟨?_, ?_, ?_, ?_, ?_⟩
  · rw [hrun2]
  · rw [hrun2]
    cases m.pool.Rollback (w1 ++ [.Commit tx]) ctx tx <;> simp
  · intro hr
    rw [hrun2, hr]
  · intro E2 hr
    rw [hrun2, hr]
  · intro hpgx
    have hr : m.pool.Rollback (w1 ++ [.Commit tx]) ctx tx = some ErrTxClosed :=
      hpgx (w1 ++ [.Commit tx]) ctx tx (by simp)
    rw [hrun2, hr]
    rfl

/-- Witness of C7 as amended: the example unit-of-work with two good
statements, on a pgx-like pool whose commit fails with a serialization
failure: the commit, then the rollback of the closed handle, whose error is
the one returned. -/
theorem RunTransaction_commit_failure_witness :
    (commitFailsPgx "could not serialize access").pool.Commit
        [.BeginTx {}, .Exec (.tx 7) "a", .Exec (.tx 7) "b"] .Background 7 =
      some (.leaf "could not serialize access") ∧
    RunTransaction (commitFailsPgx "could not serialize access") .Background
        ((createWork "a" "b").run (commitFailsPgx "could not serialize access")) [] [] =
      (.ret (some (.leaf "transaction_manager: rollback failed: tx is closed")),
        [.BeginTx {}, .Exec (.tx 7) "a", .Exec (.tx 7) "b", .Commit 7, .Rollback 7]) :=
  have h := RunTransaction_commit_failure (commitFailsPgx "could not serialize access")
    .Background ((createWork "a" "b").run (commitFailsPgx "could not serialize access")) [] []
    [.BeginTx {}, .Exec (.tx 7) "a", .Exec (.tx 7) "b"] 7 (.leaf "could not serialize access")
    rfl rfl rfl rfl
  ⟨rfl, Prod.ext (h.2.2.2.2 (pgxPool_closesOnCommit _)) h.1⟩

/-- C7 as stated fails on a pool with the contract of pgx: the commit fails
with a serialization failure, the one rollback issued after it does not
succeed, and the returned error is the rollback failure.  It is not the commit
failure, the commit error is not reachable from it, and a commit failing with
another error gives the very same returned error.  So it is not the case that
a commit failure always becomes the returned error. -/
theorem RunTransaction_commit_failure_masked :
    (commitFailsPgx "could not serialize access").pool.Commit
        [.BeginTx {}, .Exec (.tx 7) "a", .Exec (.tx 7) "b"] .Background 7 =
      some (.leaf "could not serialize access") ∧
    (commitFailsPgx "could not serialize access").pool.Rollback
        [.BeginTx {}, .Exec (.tx 7) "a", .Exec (.tx 7) "b", .Commit 7] .Background 7 ≠ none ∧
    RunTransaction (commitFailsPgx "could not serialize access") .Background
        ((createWork "a" "b").run (commitFailsPgx "could not serialize access")) [] [] =
      (.ret (some (.leaf "transaction_manager: rollback failed: tx is closed")),
        [.BeginTx {}, .Exec (.tx 7) "a", .Exec (.tx 7) "b", .Commit 7, .Rollback 7]) ∧
    GoError.leaf "could not serialize access" ∉
      (GoError.leaf "transaction_manager: rollback failed: tx is closed").chain ∧
    (RunTransaction (commitFailsPgx "could not serialize access") .Background
        ((createWork "a" "b").run (commitFailsPgx "could not serialize access")) [] []).1 =
      (RunTransaction (commitFailsPgx "deadlock detected") .Background
        ((createWork "a" "b").run (commitFailsPgx "deadlock detected")) [] []).1 ∧
    ¬ ∀ (m : TransactionManager) (ctx : Context) (fn : Context → M Err)
        (opts : List TransactionOption) (w w1 : Trace) (tx : Tx) (Ec : GoError),
        ctx.boundTx = none → m.pool.BeginTx w ctx (applyOpts opts {}) = .ok tx →
        fn (.WithTx ctx tx) (w ++ [.BeginTx (applyOpts opts {})]) = (.ret none, w1) →
        m.pool.Commit w1 ctx tx = some Ec →
        (RunTransaction m ctx fn opts w).1 =
          .ret (some (.leaf ("transaction_manager: commit failed: " ++ Ec.Error))) := by
  refine ⟨by decide, by decide, by decide, by decide, by decide, ?_⟩
  intro h
  have h2 := h (commitFailsPgx "could not serialize access") .Background
    ((createWork "a" "b").run (commitFailsPgx "could not serialize access")) [] []
    [.BeginTx {}, .Exec (.tx 7) "a", .Exec (.tx 7) "b"] 7 (.leaf "could not serialize access")
    rfl rfl rfl rfl
  revert h2
  decide

/-- C8: in a non-nested `RunTransaction` whose begin fails with `Eb`, the
outcome is the same for every unit-of-work (it is not invoked): the error
`transaction_manager: can't begin transaction: ` followed by the message of
`Eb`, and a history that gained the begin call only, so no commit and no
rollback. -/
theorem RunTransaction_begin_failure (m : TransactionManager) (ctx : Context)
    (fn : Context → M Err) (opts : List TransactionOption) (w : Trace) (Eb : GoError)
    (hn : ctx.boundTx = none)
    (hb : m.pool.BeginTx w ctx (applyOpts opts {}) = .error Eb) :
    RunTransaction m ctx fn opts w =
      (.ret (some (.leaf ("transaction_manager: can't begin transaction: " ++ Eb.Error))),
        w ++ [.BeginTx (applyOpts opts {})]) :=
  runTransaction_begin_error hn hb fn

/-- Witness of C8: on a pool that cannot begin, a unit-of-work that would
panic is never run. -/
theorem RunTransaction_begin_failure_witness :
    RunTransaction beginFails .Background ((Work.panic (.str "never")).run beginFails)
        [WithAccessMode "read only"] [] =
      (.ret (some (.leaf "transaction_manager: can't begin transaction: pool closed")),
        [.BeginTx { AccessMode := "read only" }]) :=
  RunTransaction_begin_failure beginFails .Background
    ((Work.panic (.str "never")).run beginFails) [WithAccessMode "read only"] []
    (.leaf "pool closed") rfl rfl

/-! ## The claims about nesting, resolution and configuration -/

/-- C1, as the code has it: for a `RunTransaction` on a carrier with no bound
handle around a unit-of-work that nests further `RunTransaction` calls to any
depth on the carrier it received, exactly one begin is issued across the whole
chain.  When that begin fails no finalize is issued.  When it succeeds with `tx`
the begins, commits and rollbacks of the whole chain are that begin followed by
what the outermost call issues once its unit-of-work has ended: one commit when
it returned nil and the commit succeeds, the commit and then one rollback when
the commit fails, one rollback alone when it returned an error or panicked. -/
theorem RunTransaction_chain_one_begin (m : TransactionManager) (ctx : Context) (u : Work)
    (opts : List TransactionOption) (w : Trace) (hn : ctx.boundTx = none) :
    beginCount (RunTransaction m ctx (u.run m) opts w).2 = beginCount w + 1 ∧
    (∀ e, m.pool.BeginTx w ctx (applyOpts opts {}) = .error e →
      finalizeCount (RunTransaction m ctx (u.run m) opts w).2 = finalizeCount w) ∧
    (∀ tx r w1, m.pool.BeginTx w ctx (applyOpts opts {}) = .ok tx →
      u.run m (.WithTx ctx tx) (w ++ [.BeginTx (applyOpts opts {})]) = (r, w1) →
      (r = .ret none → m.pool.Commit w1 ctx tx = none →
        control (RunTransaction m ctx (u.run m) opts w).2 =
          control w ++ [.BeginTx (applyOpts opts {}), .Commit tx]) ∧
      (r = .ret none → m.pool.Commit w1 ctx tx ≠ none →
        control (RunTransaction m ctx (u.run m) opts w).2 =
          control w ++ [.BeginTx (applyOpts opts {}), .Commit tx, .Rollback tx]) ∧
      (r ≠ .ret none →
        control (RunTransaction m ctx (u.run m) opts w).2 =
          control w ++ [.BeginTx (applyOpts opts {}), .Rollback tx])) := by
  have h := control_RunTransaction m ctx u opts w hn
  refine ⟨?_, ?_, h.2⟩
  · obtain ⟨fin, hfin, hnb⟩ := control_RunTransaction_shape m ctx u opts w hn
    rw [← beginCount_control, hfin, beginCount_eq_length, List.filter_append,
      List.filter_cons, filter_isBegin_control, hnb, beginCount_eq_length]
    simp [Event.isBegin]
  · intro e hb
    rw [← finalizeCount_control, h.1 e hb, ← finalizeCount_control w]
    simp [finalizeCount, Event.isFinalize]

/-- Witness of C1 as amended: a use case nesting the example unit-of-work, on
a pool whose commits fail: one begin with the outer options, then the commit
and the rollback of the outermost call. -/
theorem RunTransaction_chain_one_begin_witness :
    Context.Background.boundTx = none ∧
    control (RunTransaction commitFails .Background
        ((nestedWork [WithIsoLevel "serializable"] "a" "b").run commitFails)
        [WithIsoLevel "read committed"] []).2 =
      [.BeginTx { IsoLevel := "read committed" }, .Commit 7, .Rollback 7] :=
  ⟨rfl, ((RunTransaction_chain_one_begin commitFails .Background
    (nestedWork [WithIsoLevel "serializable"] "a" "b") [WithIsoLevel "read committed"] []
    rfl).2.2 7 (.ret none)
    [.BeginTx { IsoLevel := "read committed" }, .Exec (.tx 7) "a", .Exec (.tx 7) "b"]
    rfl rfl).2.1 rfl (by decide)⟩

/-- C1 as stated fails: around a nested chain whose units-of-work all return
nil, a failing commit is followed by a rollback, so two finalizes are issued;
and when begin fails none is.  So it is not the case that every chain issues
exactly one begin and exactly one finalize. -/
theorem RunTransaction_chain_finalize_counts :
    finalizeCount (RunTransaction commitFails .Background
        ((nestedWork [] "a" "b").run commitFails) [] []).2 = 2 ∧
    finalizeCount (RunTransaction beginFails .Background
        ((nestedWork [] "a" "b").run beginFails) [] []).2 = 0 ∧
    ¬ ∀ (m : TransactionManager) (ctx : Context) (u : Work) (opts : List TransactionOption)
        (w : Trace), ctx.boundTx = none →
        beginCount (RunTransaction m ctx (u.run m) opts w).2 = beginCount w + 1 ∧
        finalizeCount (RunTransaction m ctx (u.run m) opts w).2 = finalizeCount w + 1 := by
  refine ⟨by decide, by decide, ?_⟩
  intro h
  have h2 := (h commitFails .Background (nestedWork [] "a" "b") [] [] rfl).2
  revert h2
  decide

/-- C9: `GetQueryEngine` is a function of the carrier alone.  On a carrier in
which the reserved key resolves to a handle it returns that handle; on every
other carrier, so on every carrier with no bound handle, it returns the pool.
Hence in a non-nested `RunTransaction` whose begin gives `tx`, the carrier
passed to the unit-of-work resolves to `tx` (a statement the unit-of-work runs
first is issued on `tx`, right after the begin), while the parent carrier still
resolves to the pool. -/
theorem GetQueryEngine_resolves (m : TransactionManager) (ctx : Context) :
    (∀ tx, ctx.Value .txKey = some (.tx tx) → GetQueryEngine m ctx = .tx tx) ∧
    ((∀ tx, ctx.Value .txKey ≠ some (.tx tx)) → GetQueryEngine m ctx = .pool) ∧
    (ctx.boundTx = none → GetQueryEngine m ctx = .pool) ∧
    (∀ (opts : List TransactionOption) (w : Trace) (tx : Tx) (sql : String)
        (next : Err → Work),
      ctx.boundTx = none → m.pool.BeginTx w ctx (applyOpts opts {}) = .ok tx →
      GetQueryEngine m (.WithTx ctx tx) = .tx tx ∧
      GetQueryEngine m ctx = .pool ∧
      ∃ rest, (RunTransaction m ctx ((Work.exec sql next).run m) opts w).2 =
        w ++ [.BeginTx (applyOpts opts {}), .Exec (.tx tx) sql] ++ rest) := by
  have hpool : (∀ tx, ctx.Value .txKey ≠ some (.tx tx)) → GetQueryEngine m ctx = .pool := by
    intro h
    rcases Context.value_txKey ctx with h0 | ⟨tx, h1⟩
    · simp [GetQueryEngine, h0]
    · exact absurd h1 (h tx)
  have hunbound : ctx.boundTx = none → GetQueryEngine m ctx = .pool := by
    intro hn
    apply hpool
    intro tx h
    rw [boundTx_of_value h] at hn
    exact absurd hn (by simp)
  have htx : ∀ tx, GetQueryEngine m (.WithTx ctx tx) = .tx tx := by
    intro tx
    simp [GetQueryEngine, Context.Value, AnyVal.asQueryEngine]
  refine ⟨?_, hpool, hunbound, ?_⟩
  · intro tx h
    simp [GetQueryEngine, h, AnyVal.asQueryEngine]
  · intro opts w tx sql next hn hb
    refine ⟨htx tx, hunbound hn, ?_⟩
    have hrun : RunTransaction m ctx ((Work.exec sql next).run m) opts w = _ :=
      runTransaction_begin_ok hn hb _
    obtain ⟨rest, hrest⟩ := Work.run_bound_extends m
      (next (m.pool.Exec (w ++ [.BeginTx (applyOpts opts {})]) (.WithTx ctx tx) (.tx tx) sql))
      (.WithTx ctx tx)
      (w ++ [.BeginTx (applyOpts opts {})] ++ [.Exec (.tx tx) sql]) tx (boundTx_withTx ctx tx)
    obtain ⟨rest2, hrest2⟩ := deferred_extends m ctx tx
      ((Work.exec sql next).run m (.WithTx ctx tx) (w ++ [.BeginTx (applyOpts opts {})])).1
      ((Work.exec sql next).run m (.WithTx ctx tx) (w ++ [.BeginTx (applyOpts opts {})])).2
    refine ⟨rest ++ rest2, ?_⟩
    rw [hrun, hrest2]
    simp only [Work.run, htx]
    rw [hrest]
    simp

/-- Witness of C9: on the root carrier the example unit-of-work runs both
statements on the handle 7 the begin gave, while the root carrier and a carrier
binding only a key of another type resolve to the pool, and a carrier inside a
scope resolves to its handle. -/
theorem GetQueryEngine_resolves_witness :
    GetQueryEngine healthy scopedCtx = .tx 7 ∧
    GetQueryEngine healthy (.WithValue .Background 1 (.engine 3)) = .pool ∧
    GetQueryEngine healthy (.WithTx .Background 7) = .tx 7 ∧
    GetQueryEngine healthy .Background = .pool ∧
    ∃ rest, (RunTransaction healthy .Background ((createWork "a" "b").run healthy) [] []).2 =
      [] ++ [.BeginTx {}, .Exec (.tx 7) "a"] ++ rest :=
  ⟨(GetQueryEngine_resolves healthy scopedCtx).1 7 rfl,
    (GetQueryEngine_resolves healthy (.WithValue .Background 1 (.engine 3))).2.2.1 rfl,
    (GetQueryEngine_resolves healthy .Background).2.2.2 [] [] 7 "a" _ rfl rfl⟩

/-- C10: the configuration a non-nested `RunTransaction` begins the physical
transaction with is the in-order fold of its own option list over the zero
record: the loop of the code is that fold, and around any unit-of-work,
whatever it nests, the one begin issued carries that configuration.  Options
given to a nested inner call change nothing at all.  For a list of the
package's options the fold gives per field the value of the last option naming
it, the zero value where none does; each option sets only its own field. -/
theorem RunTransaction_config_outer_only (m : TransactionManager) (ctx : Context)
    (A : List TransactionOption) (w : Trace) (hn : ctx.boundTx = none) :
    applyOpts A {} = foldOptions A {} ∧
    (∀ u : Work, (RunTransaction m ctx (u.run m) A w).2.filter Event.isBegin =
      w.filter Event.isBegin ++ [.BeginTx (foldOptions A {})]) ∧
    (∀ (B B2 : List TransactionOption) (inner : Work) (next : Err → Work),
      RunTransaction m ctx ((Work.nested B inner next).run m) A w =
        RunTransaction m ctx ((Work.nested B2 inner next).run m) A w) ∧
    (∀ ks : List OptionSpec, foldOptions (ks.map OptionSpec.toOption) {} = expectedConfig ks) ∧
    (∀ (o : TxOptions) (v : String),
      callOpt (WithIsoLevel v) o = { o with IsoLevel := v } ∧
      callOpt (WithAccessMode v) o = { o with AccessMode := v } ∧
      callOpt (WithDeferrableMode v) o = { o with DeferrableMode := v }) := by
  refine ⟨applyOpts_eq_foldOptions A {}, ?_, ?_, ?_, ?_⟩
  · intro u
    obtain ⟨fin, hfin, hnb⟩ := control_RunTransaction_shape m ctx u A w hn
    rw [← filter_isBegin_control, hfin, List.filter_append, List.filter_cons,
      filter_isBegin_control, hnb, applyOpts_eq_foldOptions]
    simp [Event.isBegin]
  · intro B B2 inner next
    cases hb : m.pool.BeginTx w ctx (applyOpts A {}) with
    | error e =>
      show runTransaction m ctx (applyOpts A {}) _ w = runTransaction m ctx (applyOpts A {}) _ w
      rw [runTransaction_begin_error hn hb, runTransaction_begin_error hn hb]
    | ok tx =>
      show runTransaction m ctx (applyOpts A {}) _ w = runTransaction m ctx (applyOpts A {}) _ w
      rw [runTransaction_begin_ok hn hb, runTransaction_begin_ok hn hb,
        Work.run_nested_bound m (boundTx_withTx ctx tx) B B2 inner next]
  · intro ks
    rw [foldOptions_spec]
    rfl
  · intro o v
    exact ⟨rfl, rfl, rfl⟩

/-- Witness of C10: the options of `example.Create`, around a use case that
nests a call with options of its own: the one begin carries the outer options,
each field from the last option naming it. -/
theorem RunTransaction_config_outer_only_witness :
    Context.Background.boundTx = none ∧
    (RunTransaction healthy .Background
        ((nestedWork [WithIsoLevel "serializable", WithAccessMode "read only"] "a" "b").run
          healthy)
        [WithAccessMode "read write", WithIsoLevel "repeatable read",
          WithIsoLevel "read committed", WithDeferrableMode "deferrable"] []).2.filter
        Event.isBegin =
      [.BeginTx ⟨"read committed", "read write", "deferrable", "", ""⟩] :=
  ⟨rfl, (RunTransaction_config_outer_only healthy .Background
    [WithAccessMode "read write", WithIsoLevel "repeatable read",
      WithIsoLevel "read committed", WithDeferrableMode "deferrable"] [] rfl).2.1
    (nestedWork [WithIsoLevel "serializable", WithAccessMode "read only"] "a" "b")⟩

end Pgxv5
